import Mathlib

/-!
Shallow embedding of the ceiling rate limiter.

Sources embedded here:
- src/ceiling/src/store.rs: the DefaultStore bucket map, the Expiry min-heap and
  DefaultStore::set / DefaultStore::prune.
- src/ceiling-macros/src/lib.rs, impl_rule and impl_rate_limiter: the per-rule
  token-bucket evaluation generated for each rule, the composite-key synthesis and
  the aggregation of the overall denial flag across rules.

Machine integers (u32 remaining counters, u64 second timestamps) are modelled as Nat.
The only place the source performs a subtraction on a machine integer is the
decrement of the remaining counter; it is modelled with an explicit mod 2^32
(see sub32) so that wrap-around behaviour is represented faithfully.
-/

/-- A rate-limit bucket, source type (u32, u64): first component is the remaining
request count, second is the absolute reset time in seconds. -/
abbrev Bucket := Nat × Nat

/-- Static configuration of one rule from the rate_limiter! macro: limit, interval,
timeout, and the public flag (rate_limiter_input.rs, struct Rule; the key field list
is modelled separately where needed). -/
structure Rule where
  limit : Nat
  interval : Nat
  timeout : Nat
  public : Bool
deriving DecidableEq

/-- The bucket map of DefaultStore (a DashMap from String to (u32, u64)), modelled as
an association list holding at most one entry per key. -/
abbrev Store := List (String × Bucket)

/-- One entry of the expiry index, struct Expiry(u64, String) in store.rs:
(expire_at, key). -/
abbrev Expiry := Nat × String

/-- The expiry index. store.rs reverses Ord on Expiry, so the std BinaryHeap behaves
as a min-heap whose peek/pop yield the entry with the smallest expire_at. It is
modelled as a list kept sorted by ascending expire_at whose head is that minimum. -/
abbrev Heap := List Expiry

/-- Lookup in the bucket map: self.map.get(key). -/
def mapGet : Store → String → Option Bucket
  | [], _ => none
  | (k2, v) :: rest, k => if k2 = k then some v else mapGet rest k

/-- Insert/replace in the bucket map: self.map.insert(key, value). -/
def mapInsert : Store → String → Bucket → Store
  | [], k, v => [(k, v)]
  | (k2, v2) :: rest, k, v =>
    if k2 = k then (k, v) :: rest else (k2, v2) :: mapInsert rest k v

/-- Removal from the bucket map: self.map.remove(key). -/
def mapRemove : Store → String → Store
  | [], _ => []
  | (k2, v2) :: rest, k => if k2 = k then rest else (k2, v2) :: mapRemove rest k

/-- Push onto the expiry min-heap, keeping the list sorted by ascending expire_at. -/
def heapPush : Heap → Expiry → Heap
  | [], e => [e]
  | e2 :: rest, e => if e.1 ≤ e2.1 then e :: e2 :: rest else e2 :: heapPush rest e

/-- The whole mutable state of one DefaultStore: the bucket map and the expiry heap. -/
structure StoreState where
  map : Store
  heap : Heap
deriving DecidableEq

/-- DefaultStore::set (store.rs): insert the value into the map; when reset_updated
is true additionally push Expiry(value.1 + 1, key) onto the expiry heap. -/
def DefaultStore.set (s : StoreState) (key : String) (value : Bucket)
    (reset_updated : Bool) : StoreState :=
  { map := mapInsert s.map key value
    heap := if reset_updated then heapPush s.heap (value.2 + 1, key) else s.heap }

/-- Outcome of running the loop inside DefaultStore::prune for a bounded number of
iterations. broke s means the loop reached its break statement with state s (the
entry that triggered the break is peeked, not popped, so it stays in the heap).
ranOut s means the loop is still running after that many iterations with current
state s; an outcome of ranOut for every fuel value means the loop never
terminates. -/
inductive PruneOut where
  | broke (s : StoreState)
  | ranOut (s : StoreState)
deriving DecidableEq

/-- DefaultStore::prune (store.rs), iteration-indexed. Each fuel step is one pass of
the source loop body, translated literally: when the heap is empty the body of the
if-let is skipped and the loop spins (the source has no break in that case); when
the minimum entry has expire_at < now the loop breaks; otherwise the entry is
popped, the key's current bucket is read, an absent bucket moves to the next
iteration, a bucket whose reset time is < now is skipped by the continue, and any
other bucket is removed from the map. -/
def DefaultStore.prune (now : Nat) : Nat → StoreState → PruneOut
  | 0, s => .ranOut s
  | fuel + 1, s =>
    match s.heap with
    | [] => DefaultStore.prune now fuel s
    | (e, k) :: rest =>
      if e < now then .broke s
      else
        match mapGet s.map k with
        | none => DefaultStore.prune now fuel { map := s.map, heap := rest }
        | some item =>
          if item.2 < now then DefaultStore.prune now fuel { map := s.map, heap := rest }
          else DefaultStore.prune now fuel { map := mapRemove s.map k, heap := rest }

/-- Wrapping decrement of a u32 value: the u32 subtraction value - 1 reduced
mod 2^32, so 0 would wrap to 4294967295. -/
def sub32 (a : Nat) : Nat := (a + 4294967295) % 4294967296

/-- The result of evaluating one rule for one request, mirroring the code generated
by impl_rule: the per-rule denial flag (the generated code sets the shared hit
variable to true on the two denying branches), the returned metadata tuple
(remaining, reset time, public flag, key), and the store state after the write (if
any). -/
structure EvalResult where
  denied : Bool
  remaining : Nat
  resetAt : Nat
  rulePublic : Bool
  key : String
  state : StoreState
deriving DecidableEq

/-- The token-bucket transition of impl_rule applied to the effective bucket b (after
the reset step) with the reset_updated flag ru. Branches, in source order: when
remaining > 1 decrement (u32 subtraction) and write back with the computed
reset_updated, allowed; when remaining == 1 set the bucket to (0, now + timeout),
write back with reset_updated true, denied; otherwise (remaining == 0) denied with
no write. -/
def bucketStep (r : Rule) (s : StoreState) (key : String) (now : Nat) (b : Bucket)
    (ru : Bool) : EvalResult :=
  if b.1 > 1 then
    { denied := false, remaining := sub32 b.1, resetAt := b.2, rulePublic := r.public,
      key := key, state := DefaultStore.set s key (sub32 b.1, b.2) ru }
  else if b.1 = 1 then
    { denied := true, remaining := 0, resetAt := now + r.timeout,
      rulePublic := r.public, key := key,
      state := DefaultStore.set s key (0, now + r.timeout) true }
  else
    { denied := true, remaining := b.1, resetAt := b.2, rulePublic := r.public,
      key := key, state := s }

/-- One rule evaluation from impl_rule: read the bucket under the key's lock,
defaulting an absent bucket to (limit, now + interval); when the stored reset time
is < now replace the bucket by (limit, now + interval) with reset_updated true;
then apply the token-bucket transition. The trailing prune call of the generated
code is modelled separately by DefaultStore.prune. -/
def evalRule (r : Rule) (s : StoreState) (key : String) (now : Nat) : EvalResult :=
  let b0 := (mapGet s.map key).getD (r.limit, now + r.interval)
  if b0.2 < now then bucketStep r s key now (r.limit, now + r.interval) true
  else bucketStep r s key now b0 false

/-- Composite-key synthesis from impl_rule: with no key fields the key is the empty
string; otherwise the generated format string is the per-field placeholders joined
by a literal plus sign, so the string forms of the selected fields appear in
declared order separated by the plus character. -/
def makeKey : List String → String
  | [] => ""
  | [f] => f
  | f :: g :: rest => f ++ "+" ++ makeKey (g :: rest)

/-- The key one rule computes inside hit: the rule's field list selects inputs by
position, in the rule's declared order, and the selected string forms are passed to
the generated format string. -/
def ruleKey (fields : List Nat) (inputs : List String) : String :=
  makeKey (fields.map fun i => inputs.getD i "")

/-- One configured rule of the generated rate limiter together with its own store
(the generated struct holds one Arc-wrapped store per rule). -/
structure ConfiguredRule where
  rule : Rule
  fields : List Nat
  store : StoreState

/-- The generated hit method: now is captured once and shared by every rule; the
rules run in declared order, each against its own store, each possibly setting the
shared hit flag; the overall flag starts false and is only ever set to true. -/
def hitAll (rs : List ConfiguredRule) (inputs : List String) (now : Nat) :
    Bool × List EvalResult :=
  match rs with
  | [] => (false, [])
  | c :: rest =>
    let res := evalRule c.rule c.store (ruleKey c.fields inputs) now
    let t := hitAll rest inputs now
    (res.denied || t.1, res :: t.2)

/-- Iterated hits of one rule on one key, all at the same time now: the store state
after n consecutive evaluations. -/
def hitN (r : Rule) (key : String) (now : Nat) : Nat → StoreState → StoreState
  | 0, s => s
  | n + 1, s => (evalRule r (hitN r key now n s) key now).state

/-- Iterated hits of one rule on one key at an arbitrary sequence of times: the
store state after evaluating once per listed time, left to right. -/
def hitTimes (r : Rule) (key : String) (ts : List Nat) (s : StoreState) : StoreState :=
  ts.foldl (fun s2 t => (evalRule r s2 key t).state) s

/-- The displayed reset_after value from to_headers (and the serde serializer):
reset_at.saturating_sub(now). Nat subtraction is truncated at zero, which is
exactly u64 saturating_sub for in-range values. -/
def resetAfter (resetAt now : Nat) : Nat := resetAt - now

/-! ## Helper lemmas shared by the claim theorems -/

/-- Lookup of the sole entry of a one-entry map. -/
theorem mapGet_singleton (k : String) (v : Bucket) : mapGet [(k, v)] k = some v := by
  simp [mapGet]

/-- Lookup after an insert under the same key returns the inserted value. -/
theorem mapGet_mapInsert_self (m : Store) (k : String) (v : Bucket) :
    mapGet (mapInsert m k v) k = some v := by
  induction m with
  | nil => simp [mapInsert, mapGet]
  | cons hd tl ih =>
    obtain ⟨k2, v2⟩ := hd
    by_cases h : k2 = k
    · simp [mapInsert, h, mapGet]
    · simp [mapInsert, h, mapGet, ih]

/-- For a positive in-range u32 value the wrapping decrement is the exact
decrement: no wrap below zero occurs. -/
theorem sub32_eq_sub (e : Nat) (h0 : 0 < e) (h32 : e < 4294967296) :
    sub32 e = e - 1 := by
  unfold sub32
  omega

/-- Evaluation on an absent bucket runs the token-bucket step on the defaulted
bucket (limit, now + interval) with reset_updated false: the default's reset time
now + interval is never < now, so the reset branch cannot fire. -/
theorem evalRule_absent (r : Rule) (s : StoreState) (key : String) (now : Nat)
    (hb : mapGet s.map key = none) :
    evalRule r s key now = bucketStep r s key now (r.limit, now + r.interval) false := by
  have h : ¬ ((r.limit, now + r.interval) : Bucket).2 < now := by
    simp only []
    omega
  simp [evalRule, hb, h]

/-- Evaluation on a stored bucket whose reset time has not strictly passed runs the
token-bucket step on that bucket unchanged, with reset_updated false. -/
theorem evalRule_live (r : Rule) (s : StoreState) (key : String) (now : Nat)
    (b : Bucket) (hb : mapGet s.map key = some b) (hra : ¬ b.2 < now) :
    evalRule r s key now = bucketStep r s key now b false := by
  simp [evalRule, hb, hra]

/-- Evaluation on a stored bucket whose reset time is strictly past replaces it by
the fresh bucket (limit, now + interval) with reset_updated true. -/
theorem evalRule_expired (r : Rule) (s : StoreState) (key : String) (now : Nat)
    (b : Bucket) (hb : mapGet s.map key = some b) (hra : b.2 < now) :
    evalRule r s key now = bucketStep r s key now (r.limit, now + r.interval) true := by
  simp [evalRule, hb, hra]

/-- The remaining > 1 branch of the token-bucket step: decrement and write back,
allowed. -/
theorem bucketStep_dec (r : Rule) (s : StoreState) (key : String) (now : Nat)
    (b : Bucket) (ru : Bool) (h : 1 < b.1) :
    bucketStep r s key now b ru =
      { denied := false, remaining := sub32 b.1, resetAt := b.2, rulePublic := r.public,
        key := key, state := DefaultStore.set s key (sub32 b.1, b.2) ru } := by
  simp [bucketStep, h]

/-- The remaining == 1 branch of the token-bucket step: trip to (0, now + timeout),
write back with reset_updated true, denied. -/
theorem bucketStep_one (r : Rule) (s : StoreState) (key : String) (now : Nat)
    (b : Bucket) (ru : Bool) (h : b.1 = 1) :
    bucketStep r s key now b ru =
      { denied := true, remaining := 0, resetAt := now + r.timeout,
        rulePublic := r.public, key := key,
        state := DefaultStore.set s key (0, now + r.timeout) true } := by
  simp [bucketStep, h]

/-- The remaining == 0 branch of the token-bucket step: denied with no write at
all, the store state is returned untouched. -/
theorem bucketStep_zero (r : Rule) (s : StoreState) (key : String) (now : Nat)
    (b : Bucket) (ru : Bool) (h : b.1 = 0) :
    bucketStep r s key now b ru =
      { denied := true, remaining := b.1, resetAt := b.2, rulePublic := r.public,
        key := key, state := s } := by
  simp [bucketStep, h]

/-- Prepending a field that already ends in the separator to a key list associates
with the recursive join. -/
theorem makeKey_cons_append (f g : String) (gs : List String) :
    makeKey ((f ++ "+" ++ g) :: gs) = f ++ "+" ++ makeKey (g :: gs) := by
  cases gs with
  | nil => rfl
  | cons b bs => simp [makeKey, String.append_assoc]

/-! ## Claim theorems -/

/-- Claim C1 (code bug): prune is required never to remove a bucket whose live
reset_at is >= now, but the source loop removes exactly those buckets. Concretely,
with the map holding key k with live bucket (0, 5), the heap holding the single
entry (6, k) and now = 3 (so 5 >= 3: the bucket is live by the prune doc comment in
store.rs itself), one iteration of the prune loop pops the entry and removes k from
the map, leaving the store empty; lookup of k afterwards yields none. -/
theorem prune_removes_live_bucket :
    mapGet [("k", (0, 5))] "k" = some (0, 5) ∧
    ¬ (5 : Nat) < 3 ∧
    DefaultStore.prune 3 1 ⟨[("k", (0, 5))], [(6, "k")]⟩ = PruneOut.ranOut ⟨[], []⟩ ∧
    mapGet (StoreState.map ⟨[], []⟩) "k" = none := by decide

/-- Claim C2 (code bug): prune is required to terminate and to be a no-op on an
empty expiry index, but with an empty heap the source loop body is one if-let with
no else and no break, so the loop spins forever: for every iteration count the
loop has neither broken nor changed the state, i.e. it never terminates. -/
theorem prune_spins_on_empty_heap (now fuel : Nat) (m : Store) :
    DefaultStore.prune now fuel ⟨m, []⟩ = PruneOut.ranOut ⟨m, []⟩ := by
  induction fuel with
  | zero => rfl
  | succ n ih => simpa [DefaultStore.prune] using ih

/-- Claim C3 counterexample: the composite key is not the separator-free
concatenation of the field strings. For the inputs ab and c the key differs from
the plain concatenation abc, and the inputs (ab, c) and (a, bc), which the claim
says must collide, produce different keys. -/
theorem key_not_plain_concat :
    makeKey ["ab", "c"] ≠ "ab" ++ "c" ∧
    makeKey ["ab", "c"] ≠ makeKey ["a", "bc"] := by decide

/-- Claim C3 as amended: the composite key equals the string forms of the rule's
selected input fields, in declared order, joined with the separator plus between
consecutive fields (the generated format string joins the placeholders with a
plus character); tuples can therefore still alias exactly when the fields
themselves contain the separator, as (a+b, c) and (a, b+c) do. -/
theorem key_join_with_plus (f : String) (fs : List String) :
    makeKey [] = "" ∧
    makeKey (f :: fs) = fs.foldl (fun acc s => acc ++ "+" ++ s) f ∧
    makeKey ["a+b", "c"] = makeKey ["a", "b+c"] := by
  refine ⟨rfl, ?_, by decide⟩
  induction fs generalizing f with
  | nil => rfl
  | cons g gs ih =>
    calc makeKey (f :: g :: gs) = f ++ "+" ++ makeKey (g :: gs) := rfl
      _ = makeKey ((f ++ "+" ++ g) :: gs) := (makeKey_cons_append f g gs).symm
      _ = gs.foldl (fun acc s => acc ++ "+" ++ s) (f ++ "+" ++ g) := ih (f ++ "+" ++ g)
      _ = (g :: gs).foldl (fun acc s => acc ++ "+" ++ s) f := rfl

/-- Claim C5 counterexample: the evaluator does not reset at now = reset_at. With a
tripped bucket (0, 5) stored for k under a rule with limit 2 and interval 10, a hit
at exactly now = 5 is denied with remaining 0 and the old reset time 5; had the
bucket been reset first, as the claim states for now >= reset_at, the hit would
have been allowed with remaining 1 and reset time 15. -/
theorem reset_boundary_counterexample :
    mapGet [("k", (0, 5))] "k" = some (0, 5) ∧
    (evalRule ⟨2, 10, 20, true⟩ ⟨[("k", (0, 5))], []⟩ "k" 5).denied = true ∧
    (evalRule ⟨2, 10, 20, true⟩ ⟨[("k", (0, 5))], []⟩ "k" 5).remaining = 0 ∧
    (evalRule ⟨2, 10, 20, true⟩ ⟨[("k", (0, 5))], []⟩ "k" 5).resetAt = 5 := by decide

/-- Claim C5 as amended: the evaluator resets a stored bucket to
(limit, now + interval) before the token-bucket step exactly when its reset_at is
strictly less than now, so the first hit strictly after reset_at is evaluated
against the full quota (for limit >= 2 it is allowed with remaining limit - 1 and
reset time now + interval); and no grant occurs on a tripped bucket while
now <= reset_at, the hit at exactly reset_at included. -/
theorem reset_strictly_after (r : Rule) (s : StoreState) (key : String) (now : Nat)
    (b : Bucket) (hb : mapGet s.map key = some b) (h32 : r.limit < 4294967296) :
    (b.2 < now → 2 ≤ r.limit →
      (evalRule r s key now).denied = false ∧
      (evalRule r s key now).remaining = r.limit - 1 ∧
      (evalRule r s key now).resetAt = now + r.interval) ∧
    (b.1 = 0 → now ≤ b.2 →
      (evalRule r s key now).denied = true ∧
      (evalRule r s key now).remaining = 0 ∧
      (evalRule r s key now).resetAt = b.2 ∧
      (evalRule r s key now).state = s) := by
  constructor
  · intro hra hL
    rw [evalRule_expired r s key now b hb hra,
        bucketStep_dec r s key now (r.limit, now + r.interval) true (by simp; omega)]
    simp [sub32_eq_sub r.limit (by omega) h32]
  · intro h0 hnow
    rw [evalRule_live r s key now b hb (by omega),
        bucketStep_zero r s key now b false h0]
    simp [h0]

/-- Claim C5 witness: rule (limit 2, interval 10), stored bucket (7, 3), hit at
now = 5 > 3: the bucket is reset and the hit allowed with remaining 1 and reset
time 15. -/
theorem reset_strictly_after_witness :
    (evalRule ⟨2, 10, 20, true⟩ ⟨[("k", (7, 3))], []⟩ "k" 5).denied = false ∧
    (evalRule ⟨2, 10, 20, true⟩ ⟨[("k", (7, 3))], []⟩ "k" 5).remaining = 1 ∧
    (evalRule ⟨2, 10, 20, true⟩ ⟨[("k", (7, 3))], []⟩ "k" 5).resetAt = 15 := by
  have h := (reset_strictly_after ⟨2, 10, 20, true⟩ ⟨[("k", (7, 3))], []⟩ "k" 5 (7, 3)
      (by decide) (by decide)).1 (by decide) (by decide)
  exact ⟨h.1, h.2.1, h.2.2⟩

/-- Claim C6: a hit on a key whose stored bucket is (0, reset_at) with reset_at not
yet strictly elapsed (now <= reset_at) is denied by the rule, returns remaining 0
with the same reset_at, and performs no store write: the bucket map and the expiry
heap after the evaluation are exactly the state before it. -/
theorem tripped_hit_no_write (r : Rule) (s : StoreState) (key : String) (now ra : Nat)
    (hb : mapGet s.map key = some (0, ra)) (hnow : now ≤ ra) :
    (evalRule r s key now).denied = true ∧
    (evalRule r s key now).remaining = 0 ∧
    (evalRule r s key now).resetAt = ra ∧
    (evalRule r s key now).state = s := by
  rw [evalRule_live r s key now (0, ra) hb (by omega),
      bucketStep_zero r s key now (0, ra) false rfl]
  simp

/-- Claim C6 witness: stored bucket (0, 50), hit at now = 30: denied, remaining 0,
reset time 50, store state untouched. -/
theorem tripped_hit_no_write_witness :
    (evalRule ⟨9, 10, 20, true⟩ ⟨[("k", (0, 50))], []⟩ "k" 30).denied = true ∧
    (evalRule ⟨9, 10, 20, true⟩ ⟨[("k", (0, 50))], []⟩ "k" 30).remaining = 0 ∧
    (evalRule ⟨9, 10, 20, true⟩ ⟨[("k", (0, 50))], []⟩ "k" 30).resetAt = 50 ∧
    (evalRule ⟨9, 10, 20, true⟩ ⟨[("k", (0, 50))], []⟩ "k" 30).state
        = ⟨[("k", (0, 50))], []⟩ := by
  exact tripped_hit_no_write ⟨9, 10, 20, true⟩ ⟨[("k", (0, 50))], []⟩ "k" 30 50
    (by decide) (by decide)

/-- Claim C7: the overall boolean of hit is the logical OR of the per-rule denial
flags: it equals any over the mapped denial flags, it is true exactly when some
returned rule result is a denial, and the per-rule results are precisely each rule
evaluated against its own store at the one shared now captured at the start. -/
theorem hit_denies_iff_some_rule_denies (rs : List ConfiguredRule) (inputs : List String)
    (now : Nat) :
    ((hitAll rs inputs now).1 =
      (rs.map fun c => (evalRule c.rule c.store (ruleKey c.fields inputs) now).denied).any
        (fun d => d)) ∧
    ((hitAll rs inputs now).1 = true ↔
      ∃ res, res ∈ (hitAll rs inputs now).2 ∧ res.denied = true) ∧
    ((hitAll rs inputs now).2 =
      rs.map fun c => evalRule c.rule c.store (ruleKey c.fields inputs) now) := by
  induction rs with
  | nil => simp [hitAll]
  | cons c rest ih =>
    obtain ⟨ih1, ih2, ih3⟩ := ih
    refine ⟨?_, ?_, ?_⟩
    · simp [hitAll, ih1]
    · simp only [hitAll, Bool.or_eq_true, ih2, List.mem_cons]
      constructor
      · rintro (h | ⟨res, hm, hd⟩)
        · exact ⟨_, Or.inl rfl, h⟩
        · exact ⟨res, Or.inr hm, hd⟩
      · rintro ⟨res, hm | hm, hd⟩
        · exact Or.inl (hm ▸ hd)
        · exact Or.inr ⟨res, hm, hd⟩
    · simp [hitAll, ih3]

/-- Claim C9: the remaining counter never underflows: the result of one evaluation
on a stored in-range bucket is either 0, or limit - 1 with limit > 1 after a reset,
or remaining - 1 with remaining > 1 (the u32 decrement is applied only in the > 1
branch, where it coincides with the exact decrement), and so stays in u32 range;
and the displayed reset_after, reset_at saturating-minus now, is 0 rather than
wrapping whenever now > reset_at, and exact otherwise. -/
theorem remaining_no_underflow_reset_after_saturates (r : Rule) (s : StoreState)
    (key : String) (now : Nat) (b : Bucket) (hb : mapGet s.map key = some b)
    (hb32 : b.1 < 4294967296) (hl32 : r.limit < 4294967296) :
    ((evalRule r s key now).remaining = 0 ∨
      (1 < r.limit ∧ (evalRule r s key now).remaining = r.limit - 1) ∨
      (1 < b.1 ∧ (evalRule r s key now).remaining = b.1 - 1)) ∧
    (evalRule r s key now).remaining < 4294967296 ∧
    (∀ ra t : Nat, ra < t → resetAfter ra t = 0) ∧
    (∀ ra t : Nat, t ≤ ra → resetAfter ra t + t = ra) := by
  have hd : (evalRule r s key now).remaining = 0 ∨
      (1 < r.limit ∧ (evalRule r s key now).remaining = r.limit - 1) ∨
      (1 < b.1 ∧ (evalRule r s key now).remaining = b.1 - 1) := by
    by_cases hra : b.2 < now
    · rw [evalRule_expired r s key now b hb hra]
      by_cases h1 : 1 < r.limit
      · right; left
        refine ⟨h1, ?_⟩
        rw [bucketStep_dec r s key now (r.limit, now + r.interval) true (by simp; omega)]
        simp [sub32_eq_sub r.limit (by omega) hl32]
      · by_cases h2 : r.limit = 1
        · left
          rw [bucketStep_one r s key now (r.limit, now + r.interval) true (by simp [h2])]
        · left
          rw [bucketStep_zero r s key now (r.limit, now + r.interval) true (by simp; omega)]
          simp
          omega
    · rw [evalRule_live r s key now b hb hra]
      by_cases h1 : 1 < b.1
      · right; right
        refine ⟨h1, ?_⟩
        rw [bucketStep_dec r s key now b false h1]
        simp [sub32_eq_sub b.1 (by omega) hb32]
      · by_cases h2 : b.1 = 1
        · left
          rw [bucketStep_one r s key now b false h2]
        · left
          rw [bucketStep_zero r s key now b false (by omega)]
          simp
          omega
  refine ⟨hd, ?_, ?_, ?_⟩
  · rcases hd with h | ⟨h1, h⟩ | ⟨h1, h⟩ <;> omega
  · intro ra t h
    unfold resetAfter
    omega
  · intro ra t h
    unfold resetAfter
    omega

/-- Claim C9 witness: stored bucket (3, 100) under a rule with limit 5, hit at
now = 50: the result lands in the decrement arm with remaining 3 - 1, and the
saturating reset_after of a reset time 5 already passed at time 7 is 0. -/
theorem remaining_no_underflow_reset_after_saturates_witness :
    ((evalRule ⟨5, 10, 20, true⟩ ⟨[("k", (3, 100))], []⟩ "k" 50).remaining = 0 ∨
      (1 < 5 ∧
        (evalRule ⟨5, 10, 20, true⟩ ⟨[("k", (3, 100))], []⟩ "k" 50).remaining = 5 - 1) ∨
      (1 < 3 ∧
        (evalRule ⟨5, 10, 20, true⟩ ⟨[("k", (3, 100))], []⟩ "k" 50).remaining = 3 - 1)) ∧
    resetAfter 5 7 = 0 := by
  have h := remaining_no_underflow_reset_after_saturates ⟨5, 10, 20, true⟩
      ⟨[("k", (3, 100))], []⟩ "k" 50 (3, 100) (by decide) (by decide) (by decide)
  exact ⟨h.1, h.2.2.1 5 7 (by decide)⟩

/-- Helper for claims C4 and C10: a zero-limit evaluation on an absent key leaves
the store state untouched at any time. -/
theorem zero_limit_state_eq (r : Rule) (s : StoreState) (key : String) (t : Nat)
    (h0 : r.limit = 0) (habs : mapGet s.map key = none) :
    (evalRule r s key t).state = s := by
  rw [evalRule_absent r s key t habs,
      bucketStep_zero r s key t (r.limit, t + r.interval) false (by simp [h0])]

/-- Claim C10: under a rule with limit 0, a hit on an absent key is denied by the
rule and returns the metadata (0, now + interval, public flag, key), and the store
is never written: the single evaluation leaves the state untouched, and any
sequence of further hits at arbitrary times leaves the state untouched with the
key still absent from the map. -/
theorem zero_limit_denies_and_never_writes (r : Rule) (s : StoreState) (key : String)
    (now : Nat) (h0 : r.limit = 0) (habs : mapGet s.map key = none) :
    (evalRule r s key now).denied = true ∧
    (evalRule r s key now).remaining = 0 ∧
    (evalRule r s key now).resetAt = now + r.interval ∧
    (evalRule r s key now).rulePublic = r.public ∧
    (evalRule r s key now).key = key ∧
    (evalRule r s key now).state = s ∧
    ∀ ts : List Nat, hitTimes r key ts s = s ∧
      mapGet (hitTimes r key ts s).map key = none := by
  have hsingle : ∀ t, (evalRule r s key t).state = s := fun t =>
    zero_limit_state_eq r s key t h0 habs
  have hts : ∀ ts : List Nat, hitTimes r key ts s = s := by
    intro ts
    induction ts with
    | nil => rfl
    | cons t ts ih =>
      show hitTimes r key ts ((evalRule r s key t).state) = s
      rw [hsingle t]
      exact ih
  rw [evalRule_absent r s key now habs,
      bucketStep_zero r s key now (r.limit, now + r.interval) false (by simp [h0])]
  refine ⟨rfl, by simp [h0], by simp, rfl, rfl, rfl, ?_⟩
  intro ts
  exact ⟨hts ts, by rw [hts ts]; exact habs⟩

/-- Claim C10 witness: a zero-limit rule on the empty store denies the hit at
now = 7 and three further hits leave the store empty with the key still absent. -/
theorem zero_limit_denies_and_never_writes_witness :
    (evalRule ⟨0, 10, 20, true⟩ ⟨[], []⟩ "k" 7).denied = true ∧
    hitTimes ⟨0, 10, 20, true⟩ "k" [1, 2, 3] ⟨[], []⟩ = ⟨[], []⟩ ∧
    mapGet (hitTimes ⟨0, 10, 20, true⟩ "k" [1, 2, 3] ⟨[], []⟩).map "k" = none := by
  have h := zero_limit_denies_and_never_writes ⟨0, 10, 20, true⟩ ⟨[], []⟩ "k" 7
      (by decide) (by decide)
  have h2 := h.2.2.2.2.2.2 [1, 2, 3]
  exact ⟨h.1, h2.1, h2.2⟩

/-- Helper for claim C4: after n + 1 hits (n + 1 at most limit - 1) at one time now
on a fresh store, the map holds exactly the key with remaining limit - (n + 1) and
reset time now + interval, and the heap is still empty (those writes pass
reset_updated false). -/
theorem hitN_fresh (r : Rule) (key : String) (now : Nat) (h32 : r.limit < 4294967296) :
    ∀ n, n + 2 ≤ r.limit →
      hitN r key now (n + 1) ⟨[], []⟩ =
        ⟨[(key, (r.limit - (n + 1), now + r.interval))], []⟩ := by
  intro n
  induction n with
  | zero =>
    intro h2
    show (evalRule r (hitN r key now 0 ⟨[], []⟩) key now).state = _
    rw [show hitN r key now 0 ⟨[], []⟩ = ⟨[], []⟩ from rfl,
        evalRule_absent r ⟨[], []⟩ key now (by simp [mapGet]),
        bucketStep_dec r ⟨[], []⟩ key now (r.limit, now + r.interval) false
          (by simp; omega)]
    simp [DefaultStore.set, mapInsert, sub32_eq_sub r.limit (by omega) h32]
  | succ m ih =>
    intro h2
    have ihm := ih (by omega)
    show (evalRule r (hitN r key now (m + 1) ⟨[], []⟩) key now).state = _
    rw [ihm,
        evalRule_live r _ key now (r.limit - (m + 1), now + r.interval)
          (mapGet_singleton key _) (by omega),
        bucketStep_dec r _ key now (r.limit - (m + 1), now + r.interval) false
          (by simp; omega)]
    have hs : sub32 (r.limit - (m + 1)) = r.limit - (m + 1 + 1) := by
      rw [sub32_eq_sub (r.limit - (m + 1)) (by omega) (by omega)]
      omega
    simp [DefaultStore.set, mapInsert, hs]

/-- Claim C4: on a fresh key under a rule with limit L >= 2, hitting L times at one
time now gives: each of the first L - 1 hits is allowed (denial flag false) with
the returned remaining decreasing by exactly one each time, L - i for the i-th hit;
the L-th hit is denied and writes the bucket (0, now + timeout) for the key; and
every further hit at a time before that reset time is denied with remaining 0 and
the same reset time, leaving the store state unchanged (so the flag stays set for
every further hit before reset_at). -/
theorem fresh_bucket_hit_sequence (r : Rule) (key : String) (now : Nat)
    (hL : 2 ≤ r.limit) (h32 : r.limit < 4294967296) :
    (∀ i, 1 ≤ i → i + 1 ≤ r.limit →
      (evalRule r (hitN r key now (i - 1) ⟨[], []⟩) key now).denied = false ∧
      (evalRule r (hitN r key now (i - 1) ⟨[], []⟩) key now).remaining = r.limit - i) ∧
    ((evalRule r (hitN r key now (r.limit - 1) ⟨[], []⟩) key now).denied = true ∧
      mapGet (evalRule r (hitN r key now (r.limit - 1) ⟨[], []⟩) key now).state.map key =
        some (0, now + r.timeout)) ∧
    (∀ t, t < now + r.timeout →
      (evalRule r (hitN r key now r.limit ⟨[], []⟩) key t).denied = true ∧
      (evalRule r (hitN r key now r.limit ⟨[], []⟩) key t).remaining = 0 ∧
      (evalRule r (hitN r key now r.limit ⟨[], []⟩) key t).resetAt = now + r.timeout ∧
      (evalRule r (hitN r key now r.limit ⟨[], []⟩) key t).state =
        hitN r key now r.limit ⟨[], []⟩) := by
  have hLm1 : hitN r key now (r.limit - 1) ⟨[], []⟩ =
      ⟨[(key, (1, now + r.interval))], []⟩ := by
    have e1 : r.limit - 1 = (r.limit - 2) + 1 := by omega
    rw [e1, hitN_fresh r key now h32 (r.limit - 2) (by omega)]
    have e3 : r.limit - (r.limit - 2 + 1) = 1 := by omega
    rw [e3]
  have hevalL : evalRule r (hitN r key now (r.limit - 1) ⟨[], []⟩) key now =
      { denied := true, remaining := 0, resetAt := now + r.timeout,
        rulePublic := r.public, key := key,
        state := DefaultStore.set ⟨[(key, (1, now + r.interval))], []⟩ key
          (0, now + r.timeout) true } := by
    rw [hLm1,
        evalRule_live r _ key now (1, now + r.interval) (mapGet_singleton key _)
          (by omega),
        bucketStep_one r _ key now (1, now + r.interval) false rfl]
  have hstate : hitN r key now r.limit ⟨[], []⟩ =
      ⟨[(key, (0, now + r.timeout))], [(now + r.timeout + 1, key)]⟩ := by
    have e2 : r.limit = (r.limit - 1) + 1 := by omega
    rw [e2]
    show (evalRule r (hitN r key now (r.limit - 1) ⟨[], []⟩) key now).state = _
    rw [hevalL]
    simp [DefaultStore.set, mapInsert, heapPush]
  refine ⟨?_, ?_, ?_⟩
  · intro i h1 h2
    cases i with
    | zero => omega
    | succ n =>
      cases n with
      | zero =>
        rw [show (1 : Nat) - 1 = 0 from rfl,
            show hitN r key now 0 ⟨[], []⟩ = ⟨[], []⟩ from rfl,
            evalRule_absent r ⟨[], []⟩ key now (by simp [mapGet]),
            bucketStep_dec r ⟨[], []⟩ key now (r.limit, now + r.interval) false
              (by simp; omega)]
        simp [sub32_eq_sub r.limit (by omega) h32]
      | succ m =>
        rw [show m + 1 + 1 - 1 = m + 1 from rfl,
            hitN_fresh r key now h32 m (by omega),
            evalRule_live r _ key now (r.limit - (m + 1), now + r.interval)
              (mapGet_singleton key _) (by omega),
            bucketStep_dec r _ key now (r.limit - (m + 1), now + r.interval) false
              (by simp; omega)]
        have hs : sub32 (r.limit - (m + 1)) = r.limit - (m + 1 + 1) := by
          rw [sub32_eq_sub (r.limit - (m + 1)) (by omega) (by omega)]
          omega
        simp [hs]
  · rw [hevalL]
    exact ⟨rfl, by simpa [DefaultStore.set] using mapGet_mapInsert_self _ key _⟩
  · intro t ht
    rw [hstate,
        evalRule_live r _ key t (0, now + r.timeout) (mapGet_singleton key _)
          (by simp; omega),
        bucketStep_zero r _ key t (0, now + r.timeout) false rfl]
    exact ⟨rfl, rfl, rfl, rfl⟩

/-- Claim C4 witness: rule (limit 3, interval 5, timeout 7), fresh key, three hits
at now = 100: the first hit is allowed with remaining 2 and the third hit is
denied. -/
theorem fresh_bucket_hit_sequence_witness :
    (evalRule ⟨3, 5, 7, true⟩ (hitN ⟨3, 5, 7, true⟩ "k" 100 0 ⟨[], []⟩) "k" 100).denied
        = false ∧
    (evalRule ⟨3, 5, 7, true⟩ (hitN ⟨3, 5, 7, true⟩ "k" 100 0 ⟨[], []⟩) "k" 100).remaining
        = 2 ∧
    (evalRule ⟨3, 5, 7, true⟩ (hitN ⟨3, 5, 7, true⟩ "k" 100 2 ⟨[], []⟩) "k" 100).denied
        = true := by
  have h := fresh_bucket_hit_sequence ⟨3, 5, 7, true⟩ "k" 100 (by decide) (by decide)
  exact ⟨(h.1 1 (by decide) (by decide)).1, (h.1 1 (by decide) (by decide)).2, h.2.1.1⟩
